import Mathlib

/-!
# Verification of the rent-monitor listing engine

A shallow embedding of `src/monitor.py` (the rental-listing monitor):
the money/unit parsers, field extractors, the card → listing builder
(`parse_properties_for_site`), the identity store (`load_seen_ids` /
`save_seen_ids`), de-duplication (`dedupe_properties`), the new-item diff
and the `main` control flow.

Conventions of the embedding:
* Python `str` is Lean `String`; character-level work is done on `String.data`
  (a `List Char`), with the same Unicode code points.
* Python `int` is `Int` (arbitrary precision, as in Python); Python `float`
  is modelled by exact rationals `ℚ`.  Every theorem that touches a value
  produced through `float` is restricted to inputs on which IEEE-754 double
  arithmetic is exact, so the rational model agrees with CPython there.
* A Python function that can raise an exception is modelled with `Option`
  (`none` = the exception escapes); one that cannot raise returns plainly.
* The regular-expression searches of the source are implemented as
  special-purpose matchers with Python `re.search` semantics (leftmost
  start position, greedy quantifiers with backtracking).
* `BeautifulSoup` markup is abstracted as `Soup`/`Card`/`Anchor`: a card
  carries exactly the observations the source makes of a DOM node
  (its `get_text` result, its `a[href]` descendants, and the result of
  `select_one` for each name selector).
-/

namespace RentMonitor

/-! ## Character classes (Python semantics) -/

/-- Python whitespace (`str.strip`, `\s` with Unicode semantics): the code
points for which CPython's `str.isspace` holds. -/
def pyWhitespace (c : Char) : Bool :=
  c.toNat ∈ [0x09, 0x0a, 0x0b, 0x0c, 0x0d, 0x1c, 0x1d, 0x1e, 0x1f, 0x20,
    0x85, 0xa0, 0x1680,
    0x2000, 0x2001, 0x2002, 0x2003, 0x2004, 0x2005, 0x2006, 0x2007,
    0x2008, 0x2009, 0x200a, 0x2028, 0x2029, 0x202f, 0x205f, 0x3000]

/-- The ASCII digit class `[0-9]` (identical to `Char.isDigit`, phrased on
code points). -/
def isDigitChar (c : Char) : Bool := decide (48 ≤ c.toNat ∧ c.toNat ≤ 57)

/-- Python `\w` (Unicode word character), restricted to the scripts this
program meets: ASCII alphanumerics, underscore, and the CJK / kana /
fullwidth block U+3000–U+9FFF that the source's station pattern names
explicitly.  (Latin letters beyond ASCII never appear in the matched
Japanese listing text.) -/
def pyWordChar (c : Char) : Bool :=
  c.isAlphanum || c = '_' || (0x3000 ≤ c.toNat && c.toNat ≤ 0x9FFF)

/-! ## List-level string helpers -/

/-- `pat.isPrefixOf s || hasInfix (tail s) pat`: whether `pat` occurs as a
contiguous substring of `s` — Python's `pat in s`. -/
def hasInfix (s pat : List Char) : Bool :=
  pat.isPrefixOf s ||
    match s with
    | [] => false
    | _ :: t => hasInfix t pat

/-- Python `pat in s` on strings. -/
def containsStr (s pat : String) : Bool := hasInfix s.data pat.data

/-- Python `str.strip()` (both ends, Python whitespace). -/
def pyStripL (cs : List Char) : List Char :=
  ((cs.dropWhile pyWhitespace).reverse.dropWhile pyWhitespace).reverse

/-- Python `str.strip()` on `String`. -/
def pyStrip (s : String) : String := String.mk (pyStripL s.data)

/-- The maximal whitespace-separated words of a character list; `acc`
holds the reversed current word. -/
def pyWordsAux : List Char → List Char → List (List Char)
  | [], acc => if acc.isEmpty then [] else [acc.reverse]
  | c :: cs, acc =>
    if pyWhitespace c then
      if acc.isEmpty then pyWordsAux cs [] else acc.reverse :: pyWordsAux cs []
    else pyWordsAux cs (c :: acc)

/-- `normalize_space` (monitor.py:164-165): `re.sub(r"\s+", " ", text).strip()`
— collapse every whitespace run to one space and trim: equivalently, split
into whitespace-separated words and re-join them with single spaces. -/
def normalize_space (s : String) : String :=
  String.intercalate " " ((pyWordsAux s.data []).map String.mk)

/-- Value of a list of ASCII decimal digits, most significant first
(Python `int` of a digit string). -/
def digitsVal (cs : List Char) : Nat :=
  cs.foldl (fun a c => a * 10 + (c.toNat - 48)) 0

/-- A CPython `float` as this program can produce one: a finite value —
carried as the exact rational the decimal text denotes, the stand-in for
the nearest IEEE-754 double, so every value-level theorem restricts itself
to ranges where the double is exact — or positive infinity, which CPython
returns for decimal values at or beyond the binary64 rounding boundary.
Negative values, `-inf` and `nan` cannot arise from the digit strings this
program converts. -/
inductive PyFloat where
  | finite (q : ℚ) : PyFloat
  | inf : PyFloat
deriving DecidableEq

/-- The overflow threshold of IEEE-754 binary64 under round-to-nearest-even:
a decimal value `≥ 2^1024 − 2^970` converts to `+inf` (the midpoint between
the largest finite double `2^1024 − 2^971` and `2^1024` rounds to even,
hence up).  Written as a literal because `2 ^ 1024` does not kernel-reduce
within the recursion limit. -/
def dblOverflow : ℚ := mkRat 179769313486231580793728971405303415079934132710037826936173778980444968292764750946649017977587207096330286416692887910946555547851940402630657488671505820681908902000708383676273854845817711531764475730270069855571366959622842914819860834936475292719074168444365510704342711559699508093042880177904174497792 1

/-- The `PyFloat` that CPython's string conversion (and its arithmetic)
yields for an exact non-negative rational: `+inf` at and beyond the
rounding boundary, otherwise finite. -/
def pyFloatOfRat (q : ℚ) : PyFloat :=
  if dblOverflow ≤ q then .inf else .finite q

/-- CPython `float()` applied to a string drawn from the characters
`[0-9.]` (which is all the program ever feeds it): `none` is a raised
`ValueError` — the string parses iff it has at most one dot and at least
one digit — and a parsed value overflows to `inf` past the binary64
boundary. -/
def floatOfDigitsDots (cs : List Char) : Option PyFloat :=
  let ip := cs.takeWhile (fun c => c ≠ '.')
  match cs.dropWhile (fun c => c ≠ '.') with
  | [] => if ip.isEmpty then none else some (pyFloatOfRat (digitsVal ip : ℚ))
  | _ :: fp =>
    if fp.contains '.' then none
    else if ip.isEmpty && fp.isEmpty then none
    else some (pyFloatOfRat
      (mkRat (digitsVal ip * 10 ^ fp.length + digitsVal fp : ℕ) (10 ^ fp.length)))

/-! ## `to_yen` (monitor.py:168-176)

```python
def to_yen(token: str) -> int:
    token = token.replace(",", "").strip()
    if not token or token.startswith("-"):
        return 0
    if "万円" in token:
        num = re.sub(r"[^0-9.]", "", token)
        return int(float(num) * 10_000) if num else 0
    num = re.sub(r"[^0-9]", "", token)
    return int(num) if num else 0
```

`none` models an escaping exception. -/

/-- `int(float(num) * 10_000)`: `none` is a raised error — `ValueError`
when `num` is not a float literal, `OverflowError` when `float(num)` is
already `inf` or the product leaves the double range (CPython's
`int(inf)` raises).  A finite product is truncated toward zero, which is
`Rat.floor` on these non-negative values.  The product is computed on the
`num`/`den` representation (`mkRat (q.num * 10000) q.den` is exactly the
rational `q * 10000`, see `mkRat_num_mul`); CPython's double product can
truncate one unit lower on fractional numerals, so value theorems restrict
themselves to exactly-represented ranges. -/
def manYenValue (num : List Char) : Option Int :=
  match floatOfDigitsDots num with
  | none => none
  | some .inf => none
  | some (.finite q) =>
    match pyFloatOfRat (mkRat (q.num * 10000) q.den) with
    | .inf => none
    | .finite p => some p.floor

def toYenCore (cs : List Char) : Option Int :=
  let t := pyStripL (cs.filter (fun c => c ≠ ','))
  if t.isEmpty then some 0
  else if t.head? = some '-' then some 0
  else if hasInfix t ('万' :: ['円']) then
    let num := t.filter (fun c => isDigitChar c || c = '.')
    if num.isEmpty then some 0
    else manYenValue num
  else
    let num := t.filter isDigitChar
    if num.isEmpty then some 0 else some (digitsVal num : Int)

/-- `to_yen` on `String`. -/
def to_yen (token : String) : Option Int := toYenCore token.data

/-! ## Regex machinery

The source uses a handful of fixed `re.search` patterns.  Each is embedded
as a matcher over `List Char` with Python leftmost semantics: `reSearch`
tries every start position left to right; greedy pieces are implemented
with explicit backtracking where the pattern requires it (`starThen`), and
with maximal munch where giving characters back provably cannot help
(justified pattern by pattern in the comments). -/

/-- `re.search`: try `matchAt` at each start position, leftmost first
(including the empty suffix, as Python does). -/
def reSearch (matchAt : List Char → Option α) : List Char → Option α
  | [] => matchAt []
  | c :: cs =>
    match matchAt (c :: cs) with
    | some r => some r
    | none => reSearch matchAt cs

/-- Greedy `cls*` followed by continuation `k`, with full backtracking:
consume as many `cls` characters as possible, retrying `k` at each shorter
consumption (longest first) — Python's greedy star over a one-character
class. -/
def starThen (cls : Char → Bool) (k : List Char → Option α) : List Char → Option α
  | [] => k []
  | c :: cs =>
    if cls c then
      match starThen cls k cs with
      | some r => some r
      | none => k (c :: cs)
    else k (c :: cs)

/-- Split off a maximal run of ASCII digits. -/
def takeDigits (cs : List Char) : List Char × List Char :=
  (cs.takeWhile isDigitChar, cs.dropWhile isDigitChar)

/-- The optional fractional group `(?:\.[0-9]+)?`: the matched characters
and the rest.  Greedy: taken whenever a dot with at least one digit
follows. -/
def fracPart (r1 : List Char) : List Char × List Char :=
  match r1 with
  | x :: r =>
    if x = '.' then
      if (r.takeWhile isDigitChar).isEmpty then (([] : List Char), x :: r)
      else ('.' :: r.takeWhile isDigitChar, r.dropWhile isDigitChar)
    else (([] : List Char), x :: r)
  | [] => (([] : List Char), [])

/-- Match `[0-9]+(?:\.[0-9]+)?万円` at the current position, returning the
matched token.  Maximal munch is exact here: giving back a digit leaves a
digit where `.` or `万` is required, and when the taken fractional group
starves the literal, the backtracked alternative must match `万` against
the `.`, which also fails — so no backtracking can rescue a failed maximal
attempt. -/
def matchManYen (cs : List Char) : Option (List Char) :=
  let d1 := cs.takeWhile isDigitChar
  if d1.isEmpty then none
  else
    let fr := fracPart (cs.dropWhile isDigitChar)
    if ('万' :: ['円']).isPrefixOf fr.2 then some (d1 ++ fr.1 ++ ('万' :: ['円'])) else none

/-- Match `[0-9,]+円` at the current position, returning the matched token.
Maximal munch is exact: a surrendered class character is a digit or comma,
never `円`. -/
def matchYen (cs : List Char) : Option (List Char) :=
  let run := cs.takeWhile (fun c => isDigitChar c || c = ',')
  if run.isEmpty then none
  else if (cs.dropWhile (fun c => isDigitChar c || c = ',')).head? = some '円' then
    some (run ++ ['円'])
  else none

/-- The alternation `([0-9]+(?:\.[0-9]+)?万円|[0-9,]+円|-)` of the labelled
money pattern (monitor.py:181), alternatives tried in source order. -/
def moneyAlt (cs : List Char) : Option (List Char) :=
  match matchManYen cs with
  | some g => some g
  | none =>
    match matchYen cs with
    | some g => some g
    | none => if cs.head? = some '-' then some ['-'] else none

/-- Match `{label}[^0-9\-]*(...)` at the current position
(monitor.py:181): the literal label, then a greedy run of characters that
are neither digits nor `-` (with backtracking into the alternation, which
can begin with a comma the star would otherwise swallow), then `moneyAlt`. -/
def moneyMatchAt (label : List Char) (cs : List Char) : Option (List Char) :=
  if label.isPrefixOf cs then
    starThen (fun c => !(isDigitChar c || c = '-')) moneyAlt (cs.drop label.length)
  else none

/-! ## `extract_money_by_label` (monitor.py:179-185) -/

/-- For each label in order, `re.search` the labelled money pattern; the
first matching label's group goes through `to_yen` (whose possible
`ValueError` propagates); no label matching yields `0`. -/
def extract_money_by_label (text : String) : List String → Option Int
  | [] => some 0
  | l :: ls =>
    match reSearch (moneyMatchAt l.data) text.data with
    | some g => toYenCore g
    | none => extract_money_by_label text ls

/-! ## `extract_layout` (monitor.py:188-190)

`re.search(r"\b([1-4]LDK|[1-4]DK|[1-4]K|ワンルーム)\b", text)`. -/

/-- One alternative of the layout alternation at the current position, in
source order, returning the token and the rest.  The alternatives are
mutually exclusive at any one position (distinct leading material), so
first-match commitment is exact. -/
def layoutToken (cs : List Char) : Option (List Char × List Char) :=
  match cs with
  | c :: rest =>
    if '1' ≤ c && c ≤ '4' then
      if ('L' :: ['D', 'K']).isPrefixOf rest then some (c :: ('L' :: ['D', 'K']), rest.drop 3)
      else if ('D' :: ['K']).isPrefixOf rest then some (c :: ('D' :: ['K']), rest.drop 2)
      else if rest.head? = some 'K' then some ([c, 'K'], rest.drop 1)
      else if "ワンルーム".data.isPrefixOf (c :: rest) then some ("ワンルーム".data, (c :: rest).drop 5)
      else none
    else if "ワンルーム".data.isPrefixOf (c :: rest) then some ("ワンルーム".data, (c :: rest).drop 5)
    else none
  | [] => none

/-- Leftmost search for the layout pattern, carrying the previous character
for the `\b` word boundaries (every alternative starts and ends with a
word character, so the boundaries reduce to "neighbour is absent or not a
word character"). -/
def layoutSearch (prev : Option Char) : List Char → Option (List Char)
  | [] => none
  | c :: cs =>
    match
      (if prev.elim true (fun p => !pyWordChar p) then
        match layoutToken (c :: cs) with
        | some (tok, rest) =>
          if rest.head?.elim true (fun n => !pyWordChar n) then some tok else none
        | none => none
      else none) with
    | some tok => some tok
    | none => layoutSearch (some c) cs

/-- `extract_layout`: the matched room-configuration code, or `""`. -/
def extract_layout (text : String) : String :=
  match layoutSearch none text.data with
  | some tok => String.mk tok
  | none => ""

/-! ## `extract_area_m2` (monitor.py:193-200)

`re.search(r"([0-9]+(?:\.[0-9]+)?)\s*(?:m2|㎡)", text)` then `float` with a
`ValueError` fallback of `0.0` (the group always parses, so the fallback
is dead code, but it is mirrored by `getD 0`). -/

/-- Match the area pattern at the current position, returning the captured
number.  Maximal munch is exact by the same argument as `matchManYen`
(the unit characters are neither digits, dot, nor whitespace). -/
def areaMatchAt (cs : List Char) : Option (List Char) :=
  let d1 := cs.takeWhile isDigitChar
  if d1.isEmpty then none
  else
    let fr := fracPart (cs.dropWhile isDigitChar)
    let r3 := fr.2.dropWhile pyWhitespace
    if ('m' :: ['2']).isPrefixOf r3 || r3.head? = some '㎡' then some (d1 ++ fr.1) else none

/-- `extract_area_m2`: `float` of the captured decimal (the group always
parses, so the source's `ValueError` fallback to `0.0` is dead code, but
it is mirrored anyway), `0.0` when the pattern is absent.  Past the double
range the value is `inf`, faithfully to `float(...)`. -/
def extract_area_m2 (text : String) : PyFloat :=
  match reSearch areaMatchAt text.data with
  | some g =>
    match floatOfDigitsDots g with
    | some f => f
    | none => .finite 0
  | none => .finite 0

/-! ## `extract_age_years` (monitor.py:203-212) -/

/-- Match `築\s*([0-9]+)\s*年` at the current position, capturing the run
of digits.  Maximal munch everywhere is exact: whitespace, digits and the
closing literals are pairwise disjoint character sets. -/
def ageYearAt (cs : List Char) : Option (List Char) :=
  match cs with
  | '築' :: r =>
    let (d, r2) := takeDigits (r.dropWhile pyWhitespace)
    if d.isEmpty then none
    else if (r2.dropWhile pyWhitespace).head? = some '年' then some d else none
  | _ => none

/-- Match `築\s*([0-9]+)\s*ヶ月` at the current position. -/
def ageMonthAt (cs : List Char) : Option (List Char) :=
  match cs with
  | '築' :: r =>
    let (d, r2) := takeDigits (r.dropWhile pyWhitespace)
    if d.isEmpty then none
    else if ('ヶ' :: ['月']).isPrefixOf (r2.dropWhile pyWhitespace) then some d else none
  | _ => none

/-- Round a rational to the nearest integer, ties to even (CPython's
`round`), computed on the `num`/`den` representation: `rem2` is
`2 · den · fract x`, so `rem2 < den` means the fractional part is below
one half. -/
def roundHalfEven (x : ℚ) : Int :=
  let fl := x.floor
  let rem2 : Int := 2 * (x.num - fl * (x.den : Int))
  if rem2 < (x.den : Int) then fl
  else if (x.den : Int) < rem2 then fl + 1
  else if fl % 2 = 0 then fl else fl + 1

/-- Python `round(x, 2)` on the exact rational model: round `100 x` half
to even, divide back.  The only rounded values in the source are `n / 12`,
whose hundredfold has fractional part `0`, `1/3` or `2/3`, so ties never
arise and IEEE-754 double rounding error never flips the result on the
claim-relevant range. -/
def pyRound2 (q : ℚ) : ℚ :=
  mkRat (roundHalfEven (mkRat (q.num * 100) q.den)) 100

/-- `extract_age_years`: the new-construction keyword wins, then
`float(N)` for the year pattern — overflowing to `inf` for groups past the
double range, faithfully to CPython — then `round(float(N) / 12.0, 2)`
for the month pattern, where `round(inf, 2)` raises `OverflowError`
(modelled by `none`), then the sentinel `999.0`.  A finite group value is
an integer `n`, so `mkRat n.num 12` is exactly `n / 12`, which stays
finite and is rounded to 2 decimal places. -/
def extract_age_years (text : String) : Option PyFloat :=
  if containsStr text "新築" then some (.finite 0)
  else
    match reSearch ageYearAt text.data with
    | some d => some (pyFloatOfRat (digitsVal d : ℚ))
    | none =>
      match reSearch ageMonthAt text.data with
      | some d =>
        match pyFloatOfRat (digitsVal d : ℚ) with
        | .inf => none
        | .finite n => some (.finite (pyRound2 (mkRat n.num 12)))
      | none => some (.finite 999)

/-! ## `extract_walk_min` (monitor.py:215-217) -/

/-- Match `{label}\s*([0-9]+)\s*分` at the current position. -/
def walkAt (label : List Char) (cs : List Char) : Option (List Char) :=
  if label.isPrefixOf cs then
    let (d, r2) := takeDigits ((cs.drop label.length).dropWhile pyWhitespace)
    if d.isEmpty then none
    else if (r2.dropWhile pyWhitespace).head? = some '分' then some d else none
  else none

/-- `extract_walk_min` (the callers use the default label `"徒歩"`). -/
def extract_walk_min (text : String) (label : String) : Int :=
  match reSearch (walkAt label.data) text.data with
  | some d => (digitsVal d : Int)
  | none => 999

/-! ## `parse_station` (monitor.py:231-235)

`re.search(r"([\w　-鿿]+駅)", text)`.  Note `駅` (U+99C5) itself
lies in the class, so the greedy plus backtracks to end the capture at the
*last* `駅` of the class run (at index ≥ 1, since the plus needs one
character before it). -/

/-- Match the station pattern at the current position: take the maximal
class run, cut it after its last `駅` (which must not be the first
character). -/
def stationAt (cs : List Char) : Option (List Char) :=
  let run := cs.takeWhile pyWordChar
  let kept := (run.reverse.dropWhile (fun c => c ≠ '駅')).reverse
  if 2 ≤ kept.length then some kept else none

/-- `parse_station`: the whitespace-normalized captured station name, or
`""`. -/
def parse_station (text : String) : String :=
  match reSearch stationAt text.data with
  | some g => normalize_space (String.mk g)
  | none => ""

/-! ## URL helpers

Models of `urllib.parse.urlparse` / `urljoin` restricted to how the source
uses them: the netloc of an absolute URL is the text between `://` and the
next `/`, `?` or `#`; the path runs from there to the first `?` or `#`;
`urljoin` is only ever called with a base of the shape `scheme://netloc`
(empty path). -/

/-- The suffix after the first occurrence of `pat`, if any. -/
def afterMarker (s pat : List Char) : Option (List Char) :=
  if pat.isPrefixOf s then some (s.drop pat.length)
  else
    match s with
    | [] => none
    | _ :: t => afterMarker t pat

/-- `urlparse(url).scheme` (model). -/
def urlScheme (url : String) : String :=
  if hasInfix url.data (':' :: ('/' :: ['/'])) then
    String.mk (url.data.takeWhile (fun c => c ≠ ':'))
  else ""

/-- `urlparse(url).netloc` (model). -/
def urlNetloc (url : String) : String :=
  match afterMarker url.data (':' :: ('/' :: ['/'])) with
  | some r => String.mk (r.takeWhile (fun c => c ≠ '/' && c ≠ '?' && c ≠ '#'))
  | none => ""

/-- `urlparse(url).path` (model). -/
def urlPath (url : String) : String :=
  match afterMarker url.data (':' :: ('/' :: ['/'])) with
  | some r =>
    String.mk
      (((r.dropWhile (fun c => c ≠ '/' && c ≠ '?' && c ≠ '#')).takeWhile
        (fun c => c ≠ '?' && c ≠ '#')))
  | none => String.mk (url.data.takeWhile (fun c => c ≠ '?' && c ≠ '#'))

/-- `urljoin(base, href)` (model) for a base of the shape `scheme://netloc`:
an absolute href wins, a scheme-relative `//…` href keeps the base scheme,
a rooted href is appended to the base, anything else is resolved against
the root path `/`. -/
def urljoin (base href : String) : String :=
  if hasInfix href.data (':' :: ('/' :: ['/'])) then href
  else if ('/' :: ['/']).isPrefixOf href.data then urlScheme base ++ ":" ++ href
  else if ['/'].isPrefixOf href.data then base ++ href
  else base ++ "/" ++ href

/-! ## `extract_property_id` (monitor.py:220-228) -/

/-- The keyword alternation `(?:chintai|rent|room|b)` at the current
position, returning the rest.  The keywords are pairwise non-overlapping at
any one position, so first-match commitment is exact. -/
def propIdKeyword (cs : List Char) : Option (List Char) :=
  if "chintai".data.isPrefixOf cs then some (cs.drop 7)
  else if "rent".data.isPrefixOf cs then some (cs.drop 4)
  else if "room".data.isPrefixOf cs then some (cs.drop 4)
  else if "b".data.isPrefixOf cs then some (cs.drop 1)
  else none

/-- Match `/(?:chintai|rent|room|b)[_/\-]?([^/?.]+)` at the current
position, capturing the identifier token.  The optional separator is greedy
with one backtracking step: if consuming it starves the `[^/?.]+` group,
the group is retried at the separator itself. -/
def propIdAt (cs : List Char) : Option (List Char) :=
  match cs with
  | '/' :: r =>
    match propIdKeyword r with
    | some r2 =>
      let grab := fun (xs : List Char) =>
        let g := xs.takeWhile (fun c => !(c = '/' || c = '?' || c = '.'))
        if g.isEmpty then none else some g
      (match r2 with
       | c :: r3 =>
         if c = '_' || c = '/' || c = '-' then
           match grab r3 with
           | some g => some g
           | none => grab r2
         else grab r2
       | [] => none)
    | none => none
  | _ => none

/-- Match `([0-9]{6,})` at the current position: a maximal digit run of
length at least 6. -/
def digits6At (cs : List Char) : Option (List Char) :=
  let d := cs.takeWhile isDigitChar
  if 6 ≤ d.length then some d else none

/-- `extract_property_id`: keyword-anchored identifier, else the first run
of 6+ digits, else the path with non-ASCII-alphanumerics replaced by `_`
and stripped of outer `_`, else `"unknown"`. -/
def extract_property_id (url : String) : String :=
  let path := (urlPath url).data
  match reSearch propIdAt path with
  | some g => String.mk g
  | none =>
    match reSearch digits6At path with
    | some g => String.mk g
    | none =>
      let mapped := path.map (fun c => if c.isAlpha || c.isDigit then c else '_')
      let stripped := ((mapped.dropWhile (fun c => c = '_')).reverse.dropWhile
        (fun c => c = '_')).reverse
      if stripped.isEmpty then "unknown" else String.mk stripped

/-! ## `detect_site` (monitor.py:140-146) and the site rule registry -/

/-- ASCII `str.lower`. -/
def toLowerStr (s : String) : String := String.mk (s.data.map Char.toLower)

/-- `detect_site`: substring tests against the lowercased host. -/
def detect_site (url : String) : String :=
  let host := toLowerStr (urlNetloc url)
  if containsStr host "suumo.jp" then "suumo"
  else if containsStr host "homes.co.jp" || containsStr host "lifull" then "homes"
  else "generic"

/-- One entry of `SITE_RULES` (monitor.py:19-56). -/
structure SiteRules where
  siteName : String
  card_selectors : List String
  name_selectors : List String
  link_tokens : List String
deriving DecidableEq

/-- The `SITE_RULES` registry; `detect_site` only ever produces the three
known keys, and `SITE_RULES.get(site_key, SITE_RULES["generic"])` makes
`"generic"` the default for any other key. -/
def SITE_RULES (key : String) : SiteRules :=
  if key = "suumo" then
    { siteName := "SUUMO"
      card_selectors := ["li.cassetteitem", "div.cassetteitem",
        "li[class*='cassetteitem']", "div[class*='cassetteitem']"]
      name_selectors := [".cassetteitem_content-title", ".js-cassette_link_href"]
      link_tokens := ["/chintai/"] }
  else if key = "homes" then
    { siteName := "HOME'S"
      card_selectors := ["div.mod-mergeBuilding", "section.mod-mergeBuilding",
        "li.mod-mergeBuilding", "article", "li"]
      name_selectors := [".mod-mergeBuilding__buildingName", ".prg-buildingName",
        ".moduleInner__title"]
      link_tokens := ["/chintai/", "/room/", "/b-"] }
  else
    { siteName := "GENERIC"
      card_selectors := ["article", "li", "div"]
      name_selectors := ["h2", "h3", ".title", ".name"]
      link_tokens := ["/chintai/", "/rent/", "/room/", "/b-"] }

/-! ## Data model -/

/-- The `Property` dataclass (monitor.py:66-84). -/
structure Property where
  property_id : String
  source_site : String
  name : String
  detail_url : String
  rent_yen : Int
  management_fee_yen : Int
  parking_fee_yen : Int
  total_yen : Int
  layout : String
  area_m2 : PyFloat
  age_years : PyFloat
  nearest_station : String
  station_walk_min : Int
deriving DecidableEq

/-- `Property.unique_id`: the composite identity `source_site:property_id`. -/
def Property.unique_id (p : Property) : String :=
  p.source_site ++ ":" ++ p.property_id

/-- An `<a href=…>` element as the source observes it: its `href`
attribute (already passed through `str`) and its `get_text(" ", strip=True)`
text. -/
structure Anchor where
  href : String
  text : String
deriving DecidableEq

/-- A candidate listing card as the source observes it: `nodeId` models
CPython object identity `id(card)` (monitor.py:248), `text` the card's
`get_text(" ", strip=True)`, `anchors` its `select("a[href]")` results in
document order, and `selectOne` the text of `select_one(sel)` for a name
selector (`none` = no element). -/
structure Card where
  nodeId : Nat
  text : String
  anchors : List Anchor
  selectOne : String → Option String

/-- A parsed markup tree as the source observes it: `select` models
`soup.select(selector)` and `findAll` models
`soup.find_all(["li", "div", "article"])` (the fallback at
monitor.py:291, before its text filter). -/
structure Soup where
  select : String → List Card
  findAll : List Card

/-! ## `collect_cards` (monitor.py:238-252) -/

/-- De-duplicate by node identity, keeping first occurrences. -/
def dedupNodes : List Card → List Nat → List Card
  | [], _ => []
  | c :: cs, seenKeys =>
    if seenKeys.contains c.nodeId then dedupNodes cs seenKeys
    else c :: dedupNodes cs (c.nodeId :: seenKeys)

/-- `collect_cards`: accumulate every selector's matches in order (the
source's `if found: cards.extend(found)` guard is a no-op for an empty
`found`), then de-duplicate by node identity. -/
def collect_cards (soup : Soup) (selectors : List String) : List Card :=
  dedupNodes (selectors.foldl (fun acc sel => acc ++ soup.select sel) []) []

/-! ## `find_detail_anchor` (monitor.py:255-265) and `pick_name`
(monitor.py:268-280) -/

/-- First anchor whose href contains a link token, else the first anchor,
else `none` when the card has no anchors. -/
def find_detail_anchor (card : Card) (link_tokens : List String) : Option Anchor :=
  match card.anchors with
  | [] => none
  | a0 :: _ =>
    match card.anchors.find? (fun a => link_tokens.any (fun t => containsStr a.href t)) with
    | some a => some a
    | none => some a0

/-- Python `s[:n]`. -/
def takeStr (s : String) (n : Nat) : String := String.mk (s.data.take n)

/-- `pick_name`: first name selector with nonempty normalized text, else
the anchor's normalized text truncated to 80 characters, else the literal
placeholder. -/
def pick_name (card : Card) (selectors : List String) (anchor : Anchor) : String :=
  match selectors.findSome? (fun sel =>
      (card.selectOne sel).bind (fun t =>
        let n := normalize_space t
        if n = "" then none else some n)) with
  | some n => n
  | none =>
    let atext := normalize_space anchor.text
    if atext ≠ "" then takeStr atext 80 else "名称未取得"

/-! ## The per-card listing builder (body of the loop at monitor.py:296-341)

The outer `Option` models an exception escaping the card's processing (the
only raiser is `to_yen`); the inner `Option` is `none` for a card the loop
skips with `continue`. -/

def buildCard (site_key : String) (rules : SiteRules) (base_url : String)
    (card : Card) : Option (Option Property) :=
  let raw_text := normalize_space card.text
  if raw_text = "" then some none
  else if !(containsStr raw_text "賃" || containsStr raw_text "円" ||
      containsStr raw_text "万円") then some none
  else
    match find_detail_anchor card rules.link_tokens with
    | none => some none
    | some anchor =>
      let href := pyStrip anchor.href
      if href = "" then some none
      else
        let detail_url := urljoin base_url href
        let prop_id := extract_property_id detail_url
        let nm := pick_name card rules.name_selectors anchor
        match extract_money_by_label raw_text ["賃料", "家賃"] with
        | none => none
        | some rent0 =>
          match (if rent0 = 0 then
              match reSearch matchManYen raw_text.data with
              | some g => toYenCore g
              | none => some 0
            else some rent0) with
          | none => none
          | some rent =>
            match extract_money_by_label raw_text ["管理費", "共益費"] with
            | none => none
            | some mgmt =>
              match extract_money_by_label raw_text ["駐車場", "駐車料金"] with
              | none => none
              | some parking =>
                match extract_age_years raw_text with
                | none => none
                | some age =>
                  some (some
                    { property_id := prop_id
                      source_site := site_key
                      name := nm
                      detail_url := detail_url
                      rent_yen := rent
                      management_fee_yen := mgmt
                      parking_fee_yen := parking
                      total_yen := rent + mgmt + parking
                      layout := extract_layout raw_text
                      area_m2 := extract_area_m2 raw_text
                      age_years := age
                      nearest_station := parse_station raw_text
                      station_walk_min := extract_walk_min raw_text "徒歩" })

/-! ## `parse_properties_for_site` (monitor.py:283-343) -/

/-- The `for card in cards` loop (monitor.py:296-341): emitted listings
accumulate in order; an escaping exception aborts the whole parse. -/
def parseLoop (site_key : String) (rules : SiteRules) (base_url : String) :
    List Card → Option (List Property)
  | [] => some []
  | c :: cs =>
    match buildCard site_key rules base_url c with
    | none => none
    | some none => parseLoop site_key rules base_url cs
    | some (some p) => (parseLoop site_key rules base_url cs).map (fun l => p :: l)

/-- The whole per-page parse: site rules, card collection with the
generic-tag fallback, then the per-card builder over the cards in order.
`none` models an exception escaping the parse (caught per target in
`main`). -/
def parse_properties_for_site (soup : Soup) (search_url : String) :
    Option (List Property) :=
  let site_key := detect_site search_url
  let rules := SITE_RULES site_key
  let cards0 := collect_cards soup rules.card_selectors
  let cards := if cards0.isEmpty then soup.findAll.filter (fun c => c.text ≠ "") else cards0
  let base_url := urlScheme search_url ++ "://" ++ urlNetloc search_url
  parseLoop site_key rules base_url cards

/-! ## The identity store (monitor.py:346-366)

The persisted `seen_ids.json` is modelled at the JSON level: `Option Json`
is the file's parsed content, with `none` covering both an absent file and
one that `json.loads` rejects (the source treats both as the empty store).
Numbers are modelled as integers — the store the program itself writes
only ever contains strings. -/

/-- A parsed JSON value. -/
inductive Json where
  | null : Json
  | bool (b : Bool) : Json
  | num (n : Int) : Json
  | str (s : String) : Json
  | arr (elems : List Json) : Json
  | obj (fields : List (String × Json)) : Json

/-- Python `repr` of a decoded JSON value (string escaping elided — the
program never stores a value whose repr is taken). -/
def jsonPyRepr : Json → String
  | .null => "None"
  | .bool b => if b then "True" else "False"
  | .num n => toString n
  | .str s => "'" ++ s ++ "'"
  | .arr es => "[" ++ String.intercalate ", " (es.attach.map (fun e => jsonPyRepr e.1)) ++ "]"
  | .obj fs => "\x7b" ++ String.intercalate ", "
      (fs.attach.map (fun f => "'" ++ f.1.1 ++ "': " ++ jsonPyRepr f.1.2)) ++ "\x7d"
decreasing_by
  · rcases e with ⟨v, hv⟩
    have h := List.sizeOf_lt_of_mem hv
    simp only [Json.arr.sizeOf_spec]
    omega
  · rcases f with ⟨⟨k, v⟩, hf⟩
    have h := List.sizeOf_lt_of_mem hf
    simp only [Prod.mk.sizeOf_spec] at h
    simp only [Json.obj.sizeOf_spec]
    omega

/-- Python `str` of a decoded JSON value (`{str(v) for v in data}` at
monitor.py:356/360). -/
def jsonPyStr : Json → String
  | .str s => s
  | .null => "None"
  | .bool b => if b then "True" else "False"
  | .num n => toString n
  | v => jsonPyRepr v

/-- `dict.get` on a parsed JSON object; `json.loads` keeps the last of any
duplicate keys, hence the reversed lookup. -/
def lookupField (fs : List (String × Json)) (k : String) : Option Json :=
  (fs.reverse.find? (fun p => p.1 == k)).map (fun p => p.2)

/-- `load_seen_ids`: a list yields the set of its members' `str`; a dict
yields the same for the list under `"seen_ids"` (missing or non-list
yields the empty set); everything else, including an absent or unreadable
file, yields the empty set. -/
def load_seen_ids (file : Option Json) : Finset String :=
  match file with
  | none => ∅
  | some (.arr vs) => (vs.map jsonPyStr).toFinset
  | some (.obj fields) =>
    match lookupField fields "seen_ids" with
    | some (.arr vs) => (vs.map jsonPyStr).toFinset
    | _ => ∅
  | some _ => ∅

/-- `save_seen_ids`: the written payload `{"seen_ids": sorted(ids)}`
(Python sorts strings lexicographically by code point, which is exactly
`String`'s linear order). -/
def save_seen_ids (ids : Finset String) : Json :=
  .obj [("seen_ids", .arr ((ids.sort (· ≤ ·)).map .str))]

/-! ## `dedupe_properties` (monitor.py:409-417) -/

/-- The loop of `dedupe_properties`, with its `seen` accumulator explicit. -/
def dedupeGo (seen : Finset String) : List Property → List Property
  | [] => []
  | p :: ps =>
    if p.unique_id ∈ seen then dedupeGo seen ps
    else p :: dedupeGo (insert p.unique_id seen) ps

/-- `dedupe_properties`: keep the first listing for each composite
identity, in input order. -/
def dedupe_properties (items : List Property) : List Property :=
  dedupeGo ∅ items

/-! ## The new-item diff (monitor.py:454) -/

/-- `[p for p in all_properties if p.unique_id not in seen_ids]`. -/
def diffNew (all_properties : List Property) (seen_ids : Finset String) :
    List Property :=
  all_properties.filter (fun p => !decide (p.unique_id ∈ seen_ids))

/-! ## `main` (monitor.py:420-491)

External collaborators are presented as an environment: the result of
`load_config` (`none` = it raised), the fetch-and-parse markup per URL
(`none` = `fetch_search_html` raised), whether this run's single Slack
delivery succeeds, whether the store write succeeds, and the parsed
current store file. -/

/-- The `Config` dataclass (monitor.py:59-63). -/
structure Config where
  search_urls : List String
  slack_webhook_url : String
  notify_on_no_new : Bool
deriving DecidableEq

/-- The environment of one run. -/
structure Env where
  configResult : Option Config
  fetched : String → Option Soup
  slackOk : Bool
  saveOk : Bool
  seenFile : Option Json

/-- The observable outcome of one run: the process exit code, the listing
pool after de-duplication, the computed new items, and the identity set
passed to `save_seen_ids` (`none` when the save step is never reached). -/
structure RunResult where
  exitCode : Nat
  allProperties : List Property
  newItems : List Property
  saveArg : Option (Finset String)

/-- One search target's contribution (monitor.py:430-437): an exception
from the fetch or from the parse is caught and the target contributes
nothing. -/
def processUrl (env : Env) (url : String) : List Property :=
  match env.fetched url with
  | none => []
  | some soup =>
    match parse_properties_for_site soup url with
    | none => []
    | some ps => ps

/-- The control flow of `main`.  Note the asymmetry the source has: in the
zero-listings branch a failed notification is only logged (return 0), while
in the no-new and new-items branches a failed notification returns 1
before the store is saved; a failed save is logged and the run still
returns 0. -/
def runMain (env : Env) : RunResult :=
  match env.configResult with
  | none => { exitCode := 1, allProperties := [], newItems := [], saveArg := none }
  | some config =>
    let gathered := (config.search_urls.map (processUrl env)).flatten
    if gathered.isEmpty then
      { exitCode := 0, allProperties := [], newItems := [], saveArg := none }
    else
      let all_properties := dedupe_properties gathered
      let seen_ids := load_seen_ids env.seenFile
      let new_items := diffNew all_properties seen_ids
      let all_ids := seen_ids ∪ (all_properties.map Property.unique_id).toFinset
      if new_items.isEmpty then
        if config.notify_on_no_new && !env.slackOk then
          { exitCode := 1, allProperties := all_properties, newItems := new_items
            saveArg := none }
        else
          { exitCode := 0, allProperties := all_properties, newItems := new_items
            saveArg := some all_ids }
      else
        if env.slackOk then
          { exitCode := 0, allProperties := all_properties, newItems := new_items
            saveArg := some all_ids }
        else
          { exitCode := 1, allProperties := all_properties, newItems := new_items
            saveArg := none }

/-! ## Basic lemmas about the character classes and list helpers -/

theorem not_ws_of_digit {c : Char} (h : isDigitChar c = true) : pyWhitespace c = false := by
  simp only [isDigitChar, decide_eq_true_eq] at h
  simp only [pyWhitespace, List.mem_cons, List.not_mem_nil, or_false,
    decide_eq_false_iff_not]
  omega

theorem ne_of_digit {c : Char} (d : Char) (h : isDigitChar c = true)
    (hd : isDigitChar d = false) : c ≠ d := by
  intro e
  rw [e, hd] at h
  exact Bool.false_ne_true h

theorem dropWhile_eq_self_of_all {p : Char → Bool} {l : List Char}
    (h : ∀ c ∈ l, p c = false) : l.dropWhile p = l := by
  cases l with
  | nil => rfl
  | cons a t => simp [List.dropWhile_cons, h a (List.mem_cons_self a t)]

theorem pyStripL_eq_self {l : List Char} (h : ∀ c ∈ l, pyWhitespace c = false) :
    pyStripL l = l := by
  unfold pyStripL
  rw [dropWhile_eq_self_of_all h,
    dropWhile_eq_self_of_all (fun c hc => h c (List.mem_reverse.mp hc)),
    List.reverse_reverse]

theorem takeWhile_eq_self_of_all {p : Char → Bool} {l : List Char}
    (h : ∀ c ∈ l, p c = true) : l.takeWhile p = l :=
  List.takeWhile_eq_self_iff.mpr h

theorem takeWhile_append_stop {p : Char → Bool} {l r : List Char} {x : Char}
    (hl : ∀ c ∈ l, p c = true) (hx : p x = false) :
    (l ++ x :: r).takeWhile p = l ∧ (l ++ x :: r).dropWhile p = x :: r := by
  induction l with
  | nil => simp [List.takeWhile_cons, List.dropWhile_cons, hx]
  | cons a t ih =>
    have ha := hl a (by simp)
    have iht := ih (fun c hc => hl c (by simp [hc]))
    simp [List.takeWhile_cons, List.dropWhile_cons, ha, iht.1, iht.2]

theorem hasInfix_iff {s pat : List Char} : hasInfix s pat = true ↔ pat <:+: s := by
  induction s with
  | nil =>
    simp [hasInfix, List.isPrefixOf_iff_prefix]
  | cons a t ih =>
    rw [hasInfix]
    simp [List.isPrefixOf_iff_prefix, ih, List.infix_cons_iff]

theorem mem_of_hasInfix {s pat : List Char} {c : Char} (h : hasInfix s pat = true)
    (hc : c ∈ pat) : c ∈ s :=
  (hasInfix_iff.mp h).subset hc

/-- The `Rat.floor` used by the executable definitions is the ambient
`Int.floor`. -/
theorem rat_floor_eq_intFloor (q : ℚ) : q.floor = ⌊q⌋ := by
  rw [Rat.floor_def', ← Rat.floor_def]

/-- `mkRat (q.num * k) q.den` is exactly the rational `q * k`. -/
theorem mkRat_num_mul (q : ℚ) (k : ℤ) : mkRat (q.num * k) q.den = q * (k : ℚ) := by
  rw [Rat.mkRat_eq_div]
  push_cast
  rw [mul_comm (q.num : ℚ) (k : ℚ), mul_div_assoc, Rat.num_div_den, mul_comm]

/-! ## Non-negativity of `to_yen` results and the overflow boundary -/

theorem pyFloatOfRat_finite_val {v q : ℚ} (h : pyFloatOfRat v = .finite q) : q = v := by
  unfold pyFloatOfRat at h
  split at h
  · exact absurd h (by simp)
  · injection h with h'
    exact h'.symm

theorem pyFloatOfRat_finite_of_lt {v : ℚ} (h : v < dblOverflow) :
    pyFloatOfRat v = .finite v := by
  unfold pyFloatOfRat
  rw [if_neg (not_le.mpr h)]

theorem floatOfDigitsDots_nonneg {cs : List Char} {q : ℚ}
    (h : floatOfDigitsDots cs = some (.finite q)) : 0 ≤ q := by
  unfold floatOfDigitsDots at h
  dsimp only at h
  split at h
  · split at h
    · exact absurd h (by simp)
    · simp only [Option.some.injEq] at h
      rw [pyFloatOfRat_finite_val h]
      positivity
  · split at h
    · exact absurd h (by simp)
    · split at h
      · exact absurd h (by simp)
      · simp only [Option.some.injEq] at h
        rw [pyFloatOfRat_finite_val h, Rat.mkRat_eq_div]
        positivity

theorem manYenValue_nonneg {num : List Char} {n : Int}
    (h : manYenValue num = some n) : 0 ≤ n := by
  unfold manYenValue at h
  cases hf : floatOfDigitsDots num with
  | none =>
    rw [hf] at h
    exact absurd h (by simp)
  | some f =>
    rw [hf] at h
    cases f with
    | inf => exact absurd h (by simp)
    | finite q =>
      dsimp only at h
      cases hp : pyFloatOfRat (mkRat (q.num * 10000) q.den) with
      | inf =>
        rw [hp] at h
        exact absurd h (by simp)
      | finite p =>
        rw [hp] at h
        simp only [Option.some.injEq] at h
        subst h
        rw [pyFloatOfRat_finite_val hp, rat_floor_eq_intFloor, mkRat_num_mul]
        have hq : (0 : ℚ) ≤ q := floatOfDigitsDots_nonneg hf
        have h0 : (0 : ℚ) ≤ q * ((10000 : ℤ) : ℚ) := by positivity
        exact Int.le_floor.mpr (by exact_mod_cast h0)

theorem toYenCore_nonneg {cs : List Char} {n : Int} (h : toYenCore cs = some n) :
    0 ≤ n := by
  unfold toYenCore at h
  dsimp only at h
  split at h
  · cases h; exact le_refl 0
  · split at h
    · cases h; exact le_refl 0
    · split at h
      · split at h
        · cases h; exact le_refl 0
        · exact manYenValue_nonneg h
      · split at h
        · cases h; exact le_refl 0
        · cases h
          exact Int.ofNat_nonneg _

/-- Every amount `extract_money_by_label` returns without raising is
non-negative (`to_yen` only produces non-negative values). -/
theorem extract_money_nonneg {text : String} {labels : List String} {n : Int}
    (h : extract_money_by_label text labels = some n) : 0 ≤ n := by
  induction labels with
  | nil =>
    rw [extract_money_by_label] at h
    cases h
    exact le_refl 0
  | cons l ls ih =>
    rw [extract_money_by_label] at h
    cases hs : reSearch (moneyMatchAt l.data) text.data with
    | some g =>
      rw [hs] at h
      exact toYenCore_nonneg h
    | none =>
      rw [hs] at h
      exact ih h

/-! ## Bounding the value of a digit group -/

theorem digitsVal_foldl_lt (d : List Char) (hd : ∀ c ∈ d, isDigitChar c = true) :
    ∀ acc : Nat,
      d.foldl (fun a c => a * 10 + (c.toNat - 48)) acc < (acc + 1) * 10 ^ d.length := by
  induction d with
  | nil =>
    intro acc
    simp
  | cons c cs ih =>
    intro acc
    have hc : c.toNat - 48 ≤ 9 := by
      have := hd c (List.mem_cons_self c cs)
      simp only [isDigitChar, decide_eq_true_eq] at this
      omega
    have ihh := ih (fun x hx => hd x (List.mem_cons_of_mem c hx))
      (acc * 10 + (c.toNat - 48))
    rw [List.foldl_cons]
    refine lt_of_lt_of_le ihh ?_
    calc (acc * 10 + (c.toNat - 48) + 1) * 10 ^ cs.length
        ≤ ((acc + 1) * 10) * 10 ^ cs.length :=
          Nat.mul_le_mul_right _ (by omega)
      _ = (acc + 1) * 10 ^ (c :: cs).length := by
          rw [List.length_cons, pow_succ]
          ring

theorem digitsVal_lt {d : List Char} (hd : ∀ c ∈ d, isDigitChar c = true) :
    digitsVal d < 10 ^ d.length := by
  have h := digitsVal_foldl_lt d hd 0
  simpa [digitsVal] using h

/-! ## The Listing Builder invariants -/

theorem mk_ne_empty {l : List Char} (h : l ≠ []) : String.mk l ≠ "" := by
  intro e
  exact h (congrArg String.data e)

/-- `pick_name` never returns the empty string: each branch is guarded. -/
theorem pick_name_ne_empty (card : Card) (selectors : List String) (anchor : Anchor) :
    pick_name card selectors anchor ≠ "" := by
  unfold pick_name
  cases hf : selectors.findSome? (fun sel =>
      (card.selectOne sel).bind (fun t =>
        let n := normalize_space t
        if n = "" then none else some n)) with
  | some n =>
    dsimp only
    obtain ⟨_, sel, _, _, hsel, _⟩ := List.findSome?_eq_some_iff.mp hf
    obtain ⟨t, _, hif⟩ := Option.bind_eq_some.mp hsel
    dsimp only at hif
    by_cases he : normalize_space t = ""
    · rw [if_pos he] at hif
      exact absurd hif (by simp)
    · rw [if_neg he] at hif
      obtain rfl := (Option.some.injEq _ _).mp hif
      exact he
  | none =>
    dsimp only
    by_cases ha : normalize_space anchor.text ≠ ""
    · rw [if_pos ha]
      unfold takeStr
      refine mk_ne_empty (fun e => ha ?_)
      rcases List.take_eq_nil_iff.mp e with e80 | hdata
      · exact absurd e80 (by decide)
      · cases hs : normalize_space anchor.text with
        | mk l => rw [hs] at hdata; cases hdata; rfl
    · rw [if_neg ha]
      decide

/-- Every listing the per-card builder emits has a nonempty name,
non-negative money fields, and a total that is their sum. -/
theorem buildCard_invariant {site_key : String} {rules : SiteRules} {base_url : String}
    {card : Card} {p : Property}
    (h : buildCard site_key rules base_url card = some (some p)) :
    p.name ≠ "" ∧ 0 ≤ p.rent_yen ∧ 0 ≤ p.management_fee_yen ∧
      0 ≤ p.parking_fee_yen ∧
      p.total_yen = p.rent_yen + p.management_fee_yen + p.parking_fee_yen := by
  unfold buildCard at h
  dsimp only at h
  split at h
  · exact absurd h (by simp)
  · split at h
    · exact absurd h (by simp)
    · split at h
      · exact absurd h (by simp)
      · split at h
        · exact absurd h (by simp)
        · cases hr0 : extract_money_by_label (normalize_space card.text)
              ["賃料", "家賃"] with
          | none =>
            rw [hr0] at h
            exact absurd h (by simp)
          | some r0 =>
            rw [hr0] at h
            dsimp only at h
            cases hrent : (if r0 = 0 then
                match reSearch matchManYen (normalize_space card.text).data with
                | some g => toYenCore g
                | none => some 0
              else some r0) with
            | none =>
              rw [hrent] at h
              exact absurd h (by simp)
            | some rent =>
              rw [hrent] at h
              dsimp only at h
              have hrentn : 0 ≤ rent := by
                by_cases h0 : r0 = 0
                · rw [if_pos h0] at hrent
                  cases hsr : reSearch matchManYen (normalize_space card.text).data with
                  | some g =>
                    rw [hsr] at hrent
                    exact toYenCore_nonneg hrent
                  | none =>
                    rw [hsr] at hrent
                    cases hrent
                    exact le_refl 0
                · rw [if_neg h0] at hrent
                  cases hrent
                  exact extract_money_nonneg hr0
              cases hm0 : extract_money_by_label (normalize_space card.text)
                  ["管理費", "共益費"] with
              | none =>
                rw [hm0] at h
                exact absurd h (by simp)
              | some mgmt =>
                rw [hm0] at h
                dsimp only at h
                cases hk0 : extract_money_by_label (normalize_space card.text)
                    ["駐車場", "駐車料金"] with
                | none =>
                  rw [hk0] at h
                  exact absurd h (by simp)
                | some parking =>
                  rw [hk0] at h
                  dsimp only at h
                  cases hage : extract_age_years (normalize_space card.text) with
                  | none =>
                    rw [hage] at h
                    exact absurd h (by simp)
                  | some age =>
                    rw [hage] at h
                    dsimp only at h
                    simp only [Option.some.injEq] at h
                    subst h
                    exact ⟨pick_name_ne_empty _ _ _, hrentn,
                      extract_money_nonneg hm0, extract_money_nonneg hk0, rfl⟩

/-- The loop invariant lifted over the whole card list. -/
theorem parseLoop_invariant {site_key : String} {rules : SiteRules} {base_url : String}
    {cards : List Card} {ps : List Property}
    (h : parseLoop site_key rules base_url cards = some ps) :
    ∀ p ∈ ps, p.name ≠ "" ∧ 0 ≤ p.rent_yen ∧ 0 ≤ p.management_fee_yen ∧
      0 ≤ p.parking_fee_yen ∧
      p.total_yen = p.rent_yen + p.management_fee_yen + p.parking_fee_yen := by
  induction cards generalizing ps with
  | nil =>
    cases h
    intro p hp
    exact absurd hp (List.not_mem_nil p)
  | cons c cs ih =>
    rw [parseLoop] at h
    cases hb : buildCard site_key rules base_url c with
    | none =>
      rw [hb] at h
      exact absurd h (by simp)
    | some o =>
      rw [hb] at h
      cases o with
      | none => exact ih h
      | some q =>
        dsimp only at h
        obtain ⟨l, hl, rfl⟩ := Option.map_eq_some'.mp h
        intro p hp
        rcases List.mem_cons.mp hp with rfl | hp
        · exact buildCard_invariant hb
        · exact ih hl p hp

/-! ## Sample inputs shared by the concrete witnesses -/

/-- A concrete listing card: the end-to-end scenario text of the spec. -/
def sampleCard : Card :=
  { nodeId := 0
    text := "賃料8.5万円 管理費5,000円"
    anchors := [{ href := "x", text := "AB" }]
    selectOne := fun _ => none }

/-- A markup tree whose every selector yields `sampleCard`. -/
def sampleSoup : Soup :=
  { select := fun _ => [sampleCard], findAll := [] }

/-- The listing `parse_properties_for_site` builds from `sampleCard` on a
generic site. -/
def sampleP : Property :=
  { property_id := "x"
    source_site := "generic"
    name := "AB"
    detail_url := "http://e.com/x"
    rent_yen := 85000
    management_fee_yen := 5000
    parking_fee_yen := 0
    total_yen := 90000
    layout := ""
    area_m2 := .finite 0
    age_years := .finite 999
    nearest_station := ""
    station_walk_min := 999 }

/-! ## Claim C1 -/

/-- C1: for every markup input and search URL, every Listing emitted by
`parse_properties_for_site` has a non-empty `display_name`, non-negative
`rent_yen`, `management_fee_yen` and `parking_fee_yen`, and `total_yen`
equal to their sum. -/
theorem parse_properties_invariants (soup : Soup) (search_url : String)
    (ps : List Property) (h : parse_properties_for_site soup search_url = some ps) :
    ∀ p ∈ ps, p.name ≠ "" ∧ 0 ≤ p.rent_yen ∧ 0 ≤ p.management_fee_yen ∧
      0 ≤ p.parking_fee_yen ∧
      p.total_yen = p.rent_yen + p.management_fee_yen + p.parking_fee_yen := by
  unfold parse_properties_for_site at h
  dsimp only at h
  exact parseLoop_invariant h

/-- C1 witness: the invariant holds of the concrete listing extracted from
`sampleSoup`. -/
theorem parse_properties_invariants_witness :
    sampleP.name ≠ "" ∧ 0 ≤ sampleP.rent_yen ∧ 0 ≤ sampleP.management_fee_yen ∧
      0 ≤ sampleP.parking_fee_yen ∧
      sampleP.total_yen = sampleP.rent_yen + sampleP.management_fee_yen +
        sampleP.parking_fee_yen :=
  parse_properties_invariants sampleSoup "http://e.com/s" [sampleP]
    (by decide) sampleP (List.mem_singleton.mpr rfl)

/-- `float()` on a nonempty all-digit string parses, to the conversion of
its integer value. -/
theorem floatOfDigitsDots_digits (s : List Char) (h1 : s ≠ [])
    (hd : ∀ c ∈ s, isDigitChar c = true) :
    floatOfDigitsDots s = some (pyFloatOfRat (digitsVal s : ℚ)) := by
  have hdall : ∀ c ∈ s, (fun c => decide (c ≠ '.')) c = true :=
    fun c hc => decide_eq_true (ne_of_digit '.' (hd c hc) (by decide))
  unfold floatOfDigitsDots
  rw [takeWhile_eq_self_of_all hdall, List.dropWhile_eq_nil_iff.mpr hdall]
  dsimp only
  rw [if_neg (by simpa using h1)]

/-- Integer values below `10 ^ 16` are far inside the double range. -/
theorem intCast_lt_dblOverflow {n : ℤ} (h : n < 10 ^ 16) :
    ((n : ℤ) : ℚ) < dblOverflow := by
  have h1 : ((n : ℤ) : ℚ) < (((10 : ℤ) ^ 16 : ℤ) : ℚ) := by exact_mod_cast h
  refine lt_trans h1 ?_
  rw [dblOverflow, Rat.mkRat_one]
  norm_num

theorem natCast_lt_dblOverflow {n : ℕ} (h : n < 10 ^ 16) :
    ((n : ℕ) : ℚ) < dblOverflow := by
  have h1 : ((n : ℕ) : ℤ) < 10 ^ 16 := by exact_mod_cast h
  have h2 := intCast_lt_dblOverflow h1
  rwa [Int.cast_natCast] at h2

/-- On a token made of a nonempty digit group followed by `万円`, `to_yen`
reaches the ten-thousand-unit branch with exactly that group as the kept
numeral. -/
theorem toYenCore_digits_manYen (s : List Char) (h1 : s ≠ [])
    (hd : ∀ c ∈ s, isDigitChar c = true) :
    toYenCore (s ++ ('万' :: ['円'])) = manYenValue s := by
  have hmem : ∀ c ∈ s ++ ('万' :: ['円']),
      isDigitChar c = true ∨ c = '万' ∨ c = '円' := by
    intro c hc
    rcases List.mem_append.mp hc with hc | hc
    · exact Or.inl (hd c hc)
    · rcases List.mem_cons.mp hc with rfl | hc
      · exact Or.inr (Or.inl rfl)
      · rcases List.mem_cons.mp hc with rfl | hc
        · exact Or.inr (Or.inr rfl)
        · exact absurd hc (List.not_mem_nil c)
  have hfilter : (s ++ ('万' :: ['円'])).filter (fun c => c ≠ ',') =
      s ++ ('万' :: ['円']) := by
    refine List.filter_eq_self.mpr (fun c hc => ?_)
    rcases hmem c hc with hdig | rfl | rfl
    · exact decide_eq_true (ne_of_digit ',' hdig (by decide))
    · decide
    · decide
  have hstrip : pyStripL (s ++ ('万' :: ['円'])) = s ++ ('万' :: ['円']) := by
    refine pyStripL_eq_self (fun c hc => ?_)
    rcases hmem c hc with hdig | rfl | rfl
    · exact not_ws_of_digit hdig
    · decide
    · decide
  obtain ⟨a, s', rfl⟩ : ∃ a s', s = a :: s' := by
    cases s with
    | nil => exact absurd rfl h1
    | cons a t => exact ⟨a, t, rfl⟩
  have hinfix : hasInfix ((a :: s') ++ ('万' :: ['円'])) ('万' :: ['円']) = true :=
    hasInfix_iff.mpr (List.IsSuffix.isInfix (List.suffix_append _ _))
  have hnum : ((a :: s') ++ ('万' :: ['円'])).filter
      (fun c => isDigitChar c || c = '.') = a :: s' := by
    rw [List.filter_append]
    have h2 : List.filter (fun c => isDigitChar c || decide (c = '.'))
        ('万' :: ['円']) = [] := by decide
    rw [List.filter_eq_self.mpr (fun c hc => by rw [hd c hc]; rfl), h2,
      List.append_nil]
  unfold toYenCore
  dsimp only
  rw [hfilter, hstrip]
  rw [if_neg (by simp), if_neg ?hdash, if_pos hinfix, hnum, if_neg (by simp)]
  case hdash =>
    simp only [List.cons_append, List.head?_cons, Option.some.injEq]
    exact ne_of_digit '-' (hd a (List.mem_cons_self a s')) (by decide)

/-! ## Claim C6 -/

/-- C6 amended: `to_yen` realizes the spec's concrete values
(`"1.5万円" ↦ 15000`, `"-" ↦ 0`, `"80,000円" ↦ 80000`), and a
ten-thousand-unit token with an integer numeric part of at most 11 digits
is multiplied by 10000 exactly.  The digit bound keeps the scaled value
below `2 ^ 53`, where IEEE-754 doubles are exact: past the double-exact
range CPython's truncation of the inexact product can lose a unit, and a
numeral at or past the overflow boundary makes `float`/`int` raise
(see the counterexample) — so the spec's unbounded clause is false. -/
theorem to_yen_values :
    to_yen "1.5万円" = some 15000 ∧ to_yen "-" = some 0 ∧
      to_yen "80,000円" = some 80000 ∧
      (∀ s : List Char, s ≠ [] → (∀ c ∈ s, isDigitChar c = true) → s.length ≤ 11 →
        to_yen (String.mk (s ++ ('万' :: ['円']))) =
          some (10000 * (digitsVal s : Int))) := by
  refine ⟨by decide, by decide, by decide, ?_⟩
  intro s h1 hd hlen
  have hbound : digitsVal s < 10 ^ 11 :=
    lt_of_lt_of_le (digitsVal_lt hd) (Nat.pow_le_pow_right (by norm_num) hlen)
  show toYenCore (s ++ ('万' :: ['円'])) = _
  rw [toYenCore_digits_manYen s h1 hd]
  unfold manYenValue
  rw [floatOfDigitsDots_digits s h1 hd,
    pyFloatOfRat_finite_of_lt (natCast_lt_dblOverflow (lt_trans hbound (by norm_num)))]
  dsimp only
  rw [Rat.num_natCast, Rat.den_natCast, Rat.mkRat_one]
  have hlt2 : (((digitsVal s : ℤ) * 10000 : ℤ) : ℚ) < dblOverflow := by
    refine intCast_lt_dblOverflow ?_
    have h2 : digitsVal s * 10000 < 10 ^ 16 := by
      calc digitsVal s * 10000 < 10 ^ 11 * 10000 :=
            (Nat.mul_lt_mul_right (by norm_num)).mpr hbound
        _ ≤ 10 ^ 16 := by norm_num
    exact_mod_cast h2
  rw [pyFloatOfRat_finite_of_lt hlt2]
  dsimp only
  rw [rat_floor_eq_intFloor, Int.floor_intCast]
  exact congrArg some (mul_comm _ _)

/-- C6 witness: the bounded ten-thousand-unit clause at the concrete
token `"25万円"`. -/
theorem to_yen_values_witness :
    to_yen "1.5万円" = some 15000 ∧
      to_yen (String.mk (['2', '5'] ++ ('万' :: ['円']))) =
        some (10000 * (digitsVal ['2', '5'] : Int)) :=
  ⟨to_yen_values.1, to_yen_values.2.2.2 ['2', '5'] (by decide) (by decide) (by decide)⟩

set_option maxRecDepth 4000

/-- C6 counterexample: the spec's unbounded `N万円 ↦ N × 10000` clause
fails — a 310-digit numeral overflows CPython's `float` to `inf` and
`int(inf * 10_000)` raises `OverflowError` (modelled by `none`), not the
scaled integer. -/
theorem to_yen_overflow :
    to_yen (String.mk (List.replicate 310 '9' ++ ('万' :: ['円']))) = none ∧
      to_yen (String.mk (List.replicate 310 '9' ++ ('万' :: ['円']))) ≠
        some (10000 * (digitsVal (List.replicate 310 '9') : Int)) :=
  ⟨by decide, by decide⟩

/-! ## Claim C5 -/

/-- C5 counterexample: `to_yen` is not exception-free — on `".万円"` the
kept numeric remnant is `"."`, which CPython's `float` rejects with
`ValueError`, and on a 310-digit ten-thousand-unit numeral `float`
overflows to `inf` and `int(inf * 10_000)` raises `OverflowError`; both
raises are modelled by `none` instead of a fallback value. -/
theorem to_yen_raises :
    to_yen ".万円" = none ∧
      to_yen (String.mk (List.replicate 310 '9' ++ ('万' :: ['円']))) = none :=
  ⟨by decide, by decide⟩

/-- C5 amended: `to_yen` terminates and returns a non-negative value on
every input except those reaching the ten-thousand-unit branch with a
numeric remnant that CPython's float pipeline rejects: a nonempty remnant
that is not a float literal (dots only, or several dots — `ValueError`),
or one whose value, or whose value scaled by 10000, reaches the binary64
overflow boundary (`OverflowError` from `int(inf)`). -/
theorem to_yen_total_amended (s : String)
    (h : hasInfix (pyStripL (s.data.filter (fun c => c ≠ ','))) ('万' :: ['円']) = true →
      (pyStripL (s.data.filter (fun c => c ≠ ','))).filter
          (fun c => isDigitChar c || c = '.') = [] ∨
        ∃ q : ℚ, floatOfDigitsDots ((pyStripL (s.data.filter (fun c => c ≠ ','))).filter
            (fun c => isDigitChar c || c = '.')) = some (.finite q) ∧
          mkRat (q.num * 10000) q.den < dblOverflow) :
    (to_yen s).isSome = true ∧ 0 ≤ (to_yen s).getD 0 := by
  have hsome : ∃ n, toYenCore s.data = some n := by
    unfold toYenCore
    dsimp only
    split
    · exact ⟨0, rfl⟩
    · split
      · exact ⟨0, rfl⟩
      · split
        · next hinf =>
          rcases h hinf with hempty | ⟨q, hq, hlt⟩
          · rw [if_pos (by rw [hempty]; rfl)]
            exact ⟨0, rfl⟩
          · split
            · exact ⟨0, rfl⟩
            · unfold manYenValue
              rw [hq]
              dsimp only
              rw [pyFloatOfRat_finite_of_lt hlt]
              exact ⟨_, rfl⟩
        · split
          · exact ⟨0, rfl⟩
          · exact ⟨_, rfl⟩
  obtain ⟨n, hn⟩ := hsome
  show (toYenCore s.data).isSome = true ∧ 0 ≤ (toYenCore s.data).getD 0
  rw [hn]
  exact ⟨rfl, toYenCore_nonneg hn⟩

/-- C5 amended witness: totality at the concrete in-range
ten-thousand-unit token `"8.5万円"`. -/
theorem to_yen_total_amended_witness :
    (to_yen "8.5万円").isSome = true ∧ 0 ≤ (to_yen "8.5万円").getD 0 :=
  to_yen_total_amended "8.5万円"
    (fun _ => Or.inr ⟨mkRat 85 10, by decide, by decide⟩)

/-! ## Claims C7 and C10 -/

/-- C10: the new-construction keyword takes priority — any text containing
`"新築"` yields age `0.0` even when an explicit `築N年`/`築Nヶ月` pattern
is also present. -/
theorem age_shinchiku_priority (s : String) (h : containsStr s "新築" = true) :
    extract_age_years s = some (.finite 0) := by
  unfold extract_age_years
  rw [if_pos h]

/-- C10 witness: a text carrying both the keyword and an explicit
`築10年` pattern still yields `0`. -/
theorem age_shinchiku_priority_witness :
    extract_age_years "新築 築10年" = some (.finite 0) :=
  age_shinchiku_priority "新築 築10年" (by decide)

/-! ## Claim C2 -/

/-- Loading a freshly saved store yields exactly the saved set: the dict
wrapper, the `"seen_ids"` key, the sort and the string rendering all
cancel. -/
theorem load_save (ids : Finset String) :
    load_seen_ids (some (save_seen_ids ids)) = ids := by
  show (((ids.sort (· ≤ ·)).map Json.str).map jsonPyStr).toFinset = ids
  rw [List.map_map]
  have he : (jsonPyStr ∘ Json.str) = id := funext (fun s => rfl)
  rw [he, List.map_id]
  exact Finset.sort_toFinset _ _

/-- C2: the identity-store round-trip — for any current file contents and
any identity set `S`, saving `load() ∪ S` and loading again yields exactly
`load() ∪ S` (insertion order is already abstracted away by the set), and
in particular `load → save → load` is the identity on the stored set. -/
theorem seen_ids_roundtrip (file : Option Json) (S : Finset String) :
    load_seen_ids (some (save_seen_ids (load_seen_ids file ∪ S))) =
        load_seen_ids file ∪ S ∧
      load_seen_ids (some (save_seen_ids (load_seen_ids file))) =
        load_seen_ids file :=
  ⟨load_save _, load_save _⟩

/-! ## Claim C3 -/

/-- C3: the new-item diff (monitor.py:454) returns exactly the sublist of
`allListings` whose composite identity is absent from the stored set, in
the input order: it is a sublist of the input (so relative order is
preserved), membership is exactly "listed and unstored", and every
unstored listing keeps its multiplicity while stored ones are absent. -/
theorem diffNew_spec (l : List Property) (stored : Finset String) :
    (diffNew l stored).Sublist l ∧
      (∀ p, p ∈ diffNew l stored ↔ p ∈ l ∧ p.unique_id ∉ stored) ∧
      (∀ p, (diffNew l stored).count p =
        if p.unique_id ∈ stored then 0 else l.count p) := by
  refine ⟨List.filter_sublist l, fun p => ?_, fun p => ?_⟩
  · rw [diffNew, List.mem_filter]
    simp
  · rw [diffNew]
    by_cases hp : p.unique_id ∈ stored
    · rw [if_pos hp]
      refine List.count_eq_zero.mpr (fun hmem => ?_)
      have := (List.mem_filter.mp hmem).2
      simp [hp] at this
    · rw [if_neg hp]
      exact List.count_filter (by simp [hp])

/-- C3 witness: on a one-listing pool, the unseen listing is in the diff
and is dropped once its identity is stored. -/
theorem diffNew_spec_witness :
    sampleP ∈ diffNew [sampleP] (∅ : Finset String) ∧
      sampleP ∉ diffNew [sampleP] ({"generic:x"} : Finset String) :=
  ⟨((diffNew_spec [sampleP] ∅).2.1 sampleP).mpr ⟨by decide, by decide⟩,
    fun hmem => (((diffNew_spec [sampleP] {"generic:x"}).2.1 sampleP).mp hmem).2
      (by decide)⟩

/-! ## Claim C8 -/

theorem dedupeGo_sublist (seen : Finset String) (l : List Property) :
    (dedupeGo seen l).Sublist l := by
  induction l generalizing seen with
  | nil => exact List.Sublist.refl []
  | cons p ps ih =>
    rw [dedupeGo]
    by_cases hp : p.unique_id ∈ seen
    · rw [if_pos hp]
      exact (ih seen).cons p
    · rw [if_neg hp]
      exact (ih _).cons₂ p

theorem dedupeGo_id_not_seen {seen : Finset String} {l : List Property} {q : Property}
    (hq : q ∈ dedupeGo seen l) : q.unique_id ∉ seen := by
  induction l generalizing seen with
  | nil =>
    rw [dedupeGo] at hq
    exact absurd hq (List.not_mem_nil q)
  | cons p ps ih =>
    rw [dedupeGo] at hq
    by_cases hp : p.unique_id ∈ seen
    · rw [if_pos hp] at hq
      exact ih hq
    · rw [if_neg hp] at hq
      rcases List.mem_cons.mp hq with rfl | hq'
      · exact hp
      · exact fun hmem => ih hq' (Finset.mem_insert_of_mem hmem)

theorem dedupeGo_nodup (seen : Finset String) (l : List Property) :
    ((dedupeGo seen l).map Property.unique_id).Nodup := by
  induction l generalizing seen with
  | nil =>
    rw [dedupeGo]
    exact List.nodup_nil
  | cons p ps ih =>
    rw [dedupeGo]
    by_cases hp : p.unique_id ∈ seen
    · rw [if_pos hp]
      exact ih seen
    · rw [if_neg hp]
      rw [List.map_cons, List.nodup_cons]
      refine ⟨fun hmem => ?_, ih _⟩
      obtain ⟨q, hq, hid⟩ := List.mem_map.mp hmem
      exact dedupeGo_id_not_seen hq (by rw [hid]; exact Finset.mem_insert_self _ _)

theorem dedupeGo_covers {seen : Finset String} {l : List Property} {p : Property}
    (hp : p ∈ l) (hs : p.unique_id ∉ seen) :
    ∃ q ∈ dedupeGo seen l, q.unique_id = p.unique_id := by
  induction l generalizing seen with
  | nil => exact absurd hp (List.not_mem_nil p)
  | cons r ps ih =>
    rw [dedupeGo]
    by_cases hr : r.unique_id ∈ seen
    · rw [if_pos hr]
      rcases List.mem_cons.mp hp with rfl | hp'
      · exact absurd hr hs
      · exact ih hp' hs
    · rw [if_neg hr]
      rcases List.mem_cons.mp hp with rfl | hp'
      · exact ⟨p, List.mem_cons_self _ _, rfl⟩
      · by_cases hid : p.unique_id = r.unique_id
        · exact ⟨r, List.mem_cons_self _ _, hid.symm⟩
        · obtain ⟨q, hq, he⟩ := ih hp'
            (fun hmem => (Finset.mem_insert.mp hmem).elim hid hs)
          exact ⟨q, List.mem_cons_of_mem _ hq, he⟩

theorem dedupeGo_first {seen : Finset String} {l : List Property} {q : Property}
    (hq : q ∈ dedupeGo seen l) :
    l.find? (fun r => r.unique_id == q.unique_id) = some q := by
  induction l generalizing seen with
  | nil =>
    rw [dedupeGo] at hq
    exact absurd hq (List.not_mem_nil q)
  | cons p ps ih =>
    rw [dedupeGo] at hq
    by_cases hp : p.unique_id ∈ seen
    · rw [if_pos hp] at hq
      have hqs := dedupeGo_id_not_seen hq
      have hne : (p.unique_id == q.unique_id) = false := by
        rw [beq_eq_false_iff_ne]
        intro e
        exact hqs (e ▸ hp)
      rw [List.find?_cons_of_neg _ (by simp [hne])]
      exact ih hq
    · rw [if_neg hp] at hq
      rcases List.mem_cons.mp hq with rfl | hq'
      · rw [List.find?_cons_of_pos _ (by simp)]
      · have hqs := dedupeGo_id_not_seen hq'
        have hne : (p.unique_id == q.unique_id) = false := by
          rw [beq_eq_false_iff_ne]
          intro e
          exact hqs (by rw [← e]; exact Finset.mem_insert_self _ _)
        rw [List.find?_cons_of_neg _ (by simp [hne])]
        exact ih hq'

/-- C8: `dedupe_properties` emits exactly one listing per distinct
composite identity, keeping the first occurrence in input order: the
output is an order-preserving sublist, its identities are pairwise
distinct, every input identity is represented, and each emitted listing is
the first input listing carrying its identity. -/
theorem dedupe_properties_spec (items : List Property) :
    (dedupe_properties items).Sublist items ∧
      ((dedupe_properties items).map Property.unique_id).Nodup ∧
      (∀ p ∈ items, ∃ q ∈ dedupe_properties items, q.unique_id = p.unique_id) ∧
      (∀ q ∈ dedupe_properties items,
        items.find? (fun r => r.unique_id == q.unique_id) = some q) :=
  ⟨dedupeGo_sublist ∅ items, dedupeGo_nodup ∅ items,
    fun _ hp => dedupeGo_covers hp (Finset.not_mem_empty _),
    fun _ hq => dedupeGo_first hq⟩

/-- A second card resolving to the same composite identity through a
different detail link and name. -/
def samplePDup : Property :=
  { sampleP with detail_url := "http://e.com/x?from=list", name := "CD" }

/-- C8 witness: two listings with the same composite identity collapse to
the first one, which is what `find?` locates in the input. -/
theorem dedupe_properties_spec_witness :
    dedupe_properties [sampleP, samplePDup] = [sampleP] ∧
      [sampleP, samplePDup].find?
        (fun r => r.unique_id == sampleP.unique_id) = some sampleP :=
  ⟨by decide,
    (dedupe_properties_spec [sampleP, samplePDup]).2.2.2 sampleP (by decide)⟩

/-! ## Claims C4 and C9 -/

/-- Whenever `main` reaches the save step, the saved identity set is the
union of the loaded store and all observed identities — and that run exits
with status 0 (in both save-reaching branches the notification already
succeeded or was not required, and a failing write is only logged). -/
theorem runMain_saveArg_eq (env : Env) :
    ∀ S : Finset String, (runMain env).saveArg = some S →
      S = load_seen_ids env.seenFile ∪
          (((runMain env).allProperties).map Property.unique_id).toFinset ∧
        (runMain env).exitCode = 0 := by
  unfold runMain
  cases hcfg : env.configResult with
  | none =>
    intro S h
    exact absurd h (by simp)
  | some config =>
    dsimp only
    by_cases hE : ((config.search_urls.map (processUrl env)).flatten).isEmpty = true
    · rw [if_pos hE]
      intro S h
      exact absurd h (by simp)
    · rw [if_neg hE]
      by_cases hN : (diffNew
          (dedupe_properties ((config.search_urls.map (processUrl env)).flatten))
          (load_seen_ids env.seenFile)).isEmpty = true
      · rw [if_pos hN]
        by_cases hS : (config.notify_on_no_new && !env.slackOk) = true
        · rw [if_pos hS]
          intro S h
          exact absurd h (by simp)
        · rw [if_neg hS]
          intro S h
          simp only [Option.some.injEq] at h
          subst h
          exact ⟨rfl, rfl⟩
      · rw [if_neg hN]
        by_cases hS : env.slackOk = true
        · rw [if_pos hS]
          intro S h
          simp only [Option.some.injEq] at h
          subst h
          exact ⟨rfl, rfl⟩
        · rw [if_neg hS]
          intro S h
          exact absurd h (by simp)

/-- C4: identity-store monotonicity — every run that reaches the save step
writes exactly the union of the previously loaded identities with the
identities of every listing observed in the run, a superset of the loaded
set, so no identity is ever removed. -/
theorem save_monotone (env : Env) (S : Finset String)
    (h : (runMain env).saveArg = some S) :
    S = load_seen_ids env.seenFile ∪
        (((runMain env).allProperties).map Property.unique_id).toFinset ∧
      load_seen_ids env.seenFile ⊆ S := by
  obtain ⟨h1, -⟩ := runMain_saveArg_eq env S h
  refine ⟨h1, ?_⟩
  rw [h1]
  exact Finset.subset_union_left

/-- The configuration of the successful sample run. -/
def cfgSave : Config :=
  { search_urls := ["http://e.com/"], slack_webhook_url := "w", notify_on_no_new := false }

/-- A run that fetches one page, parses one listing, notifies successfully
and saves. -/
def envSave : Env :=
  { configResult := some cfgSave
    fetched := fun _ => some sampleSoup
    slackOk := true
    saveOk := true
    seenFile := none }

/-- C4 witness: the concrete saved set of `envSave` is the loaded (empty)
store united with the observed identity, and a superset of the loaded
store. -/
theorem save_monotone_witness :
    ({"generic:x"} : Finset String) = load_seen_ids envSave.seenFile ∪
        (((runMain envSave).allProperties).map Property.unique_id).toFinset ∧
      load_seen_ids envSave.seenFile ⊆ ({"generic:x"} : Finset String) :=
  save_monotone envSave {"generic:x"} (by decide)

/-- A configuration with the notify-on-no-new flag enabled. -/
def cfgNoFetch : Config :=
  { search_urls := ["http://e.com/"], slack_webhook_url := "w", notify_on_no_new := true }

/-- A run in which every configured target's fetch raises, with
notify-on-no-new enabled and Slack delivery failing. -/
def envNoFetch : Env :=
  { configResult := some cfgNoFetch
    fetched := fun _ => none
    slackOk := false
    saveOk := true
    seenFile := none }

/-- C9 counterexample: with every fetch failing (zero listings obtained),
the notify-on-no-new flag enabled and the notification delivery failing,
`main` still returns exit status 0 (monitor.py:446) — not the failure
status the claim asserts. -/
theorem exit_contract_counterexample :
    envNoFetch.configResult = some cfgNoFetch ∧
      cfgNoFetch.notify_on_no_new = true ∧
      envNoFetch.fetched "http://e.com/" = none ∧
      envNoFetch.slackOk = false ∧
      (runMain envNoFetch).allProperties = [] ∧
      (runMain envNoFetch).exitCode = 0 :=
  ⟨rfl, rfl, rfl, rfl, by decide, by decide⟩

/-- When every target contributes nothing, the run exits 0 regardless of
the notification outcome (monitor.py:439-446). -/
theorem runMain_no_listings {env : Env} {c : Config} (hcfg : env.configResult = some c)
    (hfail : ∀ url ∈ c.search_urls, processUrl env url = []) :
    (runMain env).exitCode = 0 := by
  unfold runMain
  rw [hcfg]
  dsimp only
  rw [if_pos ?hE]
  case hE =>
    rw [List.isEmpty_iff]
    refine List.flatten_eq_nil_iff.mpr (fun l hl => ?_)
    obtain ⟨url, hu, rfl⟩ := List.mem_map.mp hl
    exact hfail url hu

/-- C9 amended: configuration errors exit with failure status; when no
listings are obtained (every target's fetch failed) the process exits
successfully even if notify-on-no-new is enabled and the delivery fails —
the source only logs that delivery error; and any run that reaches the
save step exits successfully regardless of the persistence outcome. -/
theorem exit_contract_amended :
    (∀ env : Env, env.configResult = none → (runMain env).exitCode = 1) ∧
      (∀ (env : Env) (c : Config), env.configResult = some c →
        (∀ url ∈ c.search_urls, processUrl env url = []) →
        (runMain env).exitCode = 0) ∧
      (∀ (env : Env) (S : Finset String), (runMain env).saveArg = some S →
        (runMain env).exitCode = 0) := by
  refine ⟨fun env hc => ?_, fun env c hcfg hfail => runMain_no_listings hcfg hfail,
    fun env S h => (runMain_saveArg_eq env S h).2⟩
  unfold runMain
  rw [hc]

/-- A run whose configuration loading raises. -/
def envNoCfg : Env :=
  { configResult := none
    fetched := fun _ => none
    slackOk := true
    saveOk := true
    seenFile := none }

/-- C9 amended witness: the three clauses at concrete runs. -/
theorem exit_contract_amended_witness :
    (runMain envNoCfg).exitCode = 1 ∧ (runMain envNoFetch).exitCode = 0 ∧
      (runMain envSave).exitCode = 0 :=
  ⟨exit_contract_amended.1 envNoCfg rfl,
    exit_contract_amended.2.1 envNoFetch cfgNoFetch rfl (by decide),
    exit_contract_amended.2.2 envSave {"generic:x"} (by decide)⟩

end RentMonitor
